import Mathlib

/-
Verification of the Barnes-Hut N-body core of jopengl (src/main.cpp).

The embedding models the simulation core in exact rational arithmetic:
`double`/`float` values become rationals, and the two square roots of the
source (glm::length in Octree::build and in calculateForce) are handled by
an abstract length function together with hypotheses pinning its value,
since square roots are irrational in general.  The recursive
OctreeNode::insert of the source has no structural termination measure
(and indeed does not terminate on coincident positions), so insertion is
modelled with explicit fuel, returning none when the fuel runs out or when
the source would dereference a null child pointer.
-/

set_option maxRecDepth 8000
set_option linter.unusedVariables false

namespace BarnesHut

/-- 3-D vector of exact rationals, modelling glm::dvec3. -/
abbrev Vec3 : Type := ℚ × ℚ × ℚ

namespace Vec3

/-- x component. -/
def x (v : Vec3) : ℚ := v.1

/-- y component. -/
def y (v : Vec3) : ℚ := v.2.1

/-- z component. -/
def z (v : Vec3) : ℚ := v.2.2

/-- Componentwise minimum, glm::min on dvec3. -/
def vmin (a b : Vec3) : Vec3 := (min (x a) (x b), min (y a) (y b), min (z a) (z b))

/-- Componentwise maximum, glm::max on dvec3. -/
def vmax (a b : Vec3) : Vec3 := (max (x a) (x b), max (y a) (y b), max (z a) (z b))

/-- Squared Euclidean norm; glm::length v is its (generally irrational) square root. -/
def norm2 (v : Vec3) : ℚ := x v * x v + y v * y v + z v * z v

/-- Componentwise division of a vector by a scalar (glm vec / scalar). -/
def sdiv (v : Vec3) (s : ℚ) : Vec3 := (x v / s, y v / s, z v / s)

end Vec3

/-- The gravitational constant of the source, `const float G = 0.00000001;`
(main.cpp line 34).  The float nearest to 1e-8 is 11258999 * 2^(-50), which
this rational is exactly. -/
def G : ℚ := 11258999 / 1125899906842624

/-- Barnes-Hut opening angle, `const float theta = 0.5f;` (main.cpp line 35),
exactly representable. -/
def theta : ℚ := 1 / 2

/-- CelestialBody (main.cpp lines 89-189), restricted to the physical state;
color and the mesh/GL handles feed only the excluded rendering collaborator. -/
structure CelestialBody where
  position : Vec3
  velocity : Vec3
  force : Vec3
  radius : ℚ
  mass : ℚ
deriving DecidableEq

/-- OctreeNode (main.cpp lines 191-252): an axis-aligned cubic region with
aggregate mass data, directly stored bodies, and children that are either
absent (all eight null) or all present; the model keeps the children as a
list that is empty exactly when children[0] is null in the source. -/
inductive OctreeNode : Type where
  | mk (center : Vec3) (size : ℚ) (centerOfMass : Vec3) (totalMass : ℚ)
      (bodies : List CelestialBody) (children : List OctreeNode)

namespace OctreeNode

/-- Field accessor for center. -/
def center : OctreeNode → Vec3
  | .mk c _ _ _ _ _ => c

/-- Field accessor for size. -/
def size : OctreeNode → ℚ
  | .mk _ s _ _ _ _ => s

/-- Field accessor for centerOfMass. -/
def centerOfMass : OctreeNode → Vec3
  | .mk _ _ cm _ _ _ => cm

/-- Field accessor for totalMass. -/
def totalMass : OctreeNode → ℚ
  | .mk _ _ _ tm _ _ => tm

/-- Field accessor for bodies. -/
def bodies : OctreeNode → List CelestialBody
  | .mk _ _ _ _ bs _ => bs

/-- Field accessor for children. -/
def children : OctreeNode → List OctreeNode
  | .mk _ _ _ _ _ cs => cs

/-- OctreeNode::isLeaf: children[0] == nullptr, i.e. no children were created. -/
def isLeaf (n : OctreeNode) : Bool := n.children.isEmpty

/-- OctreeNode::getOctant: bit 4 for x ≥ center.x, bit 2 for y, bit 1 for z. -/
def getOctant (n : OctreeNode) (p : Vec3) : ℕ :=
  (if Vec3.x n.center ≤ Vec3.x p then 4 else 0) +
  (if Vec3.y n.center ≤ Vec3.y p then 2 else 0) +
  (if Vec3.z n.center ≤ Vec3.z p then 1 else 0)

end OctreeNode

/-- OctreeNode::subdivide: eight fresh children of half size, each offset by a
quarter of the parent size (half the child size) along each axis. -/
def subdivideChildren (c : Vec3) (size : ℚ) : List OctreeNode :=
  (List.range 8).map fun i =>
    let childSize := size / 2
    OctreeNode.mk
      (Vec3.x c + (if i &&& 4 ≠ 0 then childSize else -childSize) / 2,
        Vec3.y c + (if i &&& 2 ≠ 0 then childSize else -childSize) / 2,
        Vec3.z c + (if i &&& 1 ≠ 0 then childSize else -childSize) / 2)
      childSize (0, 0, 0) 0 [] []

mutual

/-- OctreeNode::insert (main.cpp lines 215-234), with explicit fuel for the
unbounded recursion; none models both fuel exhaustion and the null-child
dereference the source would perform on an out-of-invariant node. -/
def insertFuel : ℕ → OctreeNode → CelestialBody → Option OctreeNode
  | 0, _, _ => none
  | fuel + 1, n, b =>
    if n.isLeaf ∧ n.bodies = [] then
      some (OctreeNode.mk n.center n.size b.position b.mass [b] n.children)
    else
      match (if n.isLeaf ∧ n.bodies.length = 1 then
          match n.bodies with
          | existing :: _ =>
            insertToChildFuel fuel
              (OctreeNode.mk n.center n.size n.centerOfMass n.totalMass []
                (subdivideChildren n.center n.size))
              existing
          | [] => none
        else some n) with
      | none => none
      | some n1 =>
        match insertToChildFuel fuel n1 b with
        | none => none
        | some n2 =>
          some (OctreeNode.mk n2.center n2.size
            (Vec3.sdiv (n2.totalMass • n2.centerOfMass + b.mass • b.position)
              (n2.totalMass + b.mass))
            (n2.totalMass + b.mass) n2.bodies n2.children)
  termination_by fuel _ _ => (fuel, 0)

/-- OctreeNode::insertToChild (main.cpp lines 248-251): recurse into the child
selected by the octant of the body's position. -/
def insertToChildFuel (fuel : ℕ) (n : OctreeNode) (b : CelestialBody) : Option OctreeNode :=
  match n.children[n.getOctant b.position]? with
  | none => none
  | some child =>
    match insertFuel fuel child b with
    | none => none
    | some child1 =>
      some (OctreeNode.mk n.center n.size n.centerOfMass n.totalMass n.bodies
        (n.children.set (n.getOctant b.position) child1))
  termination_by (fuel, 1)

end

/-- Componentwise minimum of all body positions, starting from the first
body's position (the loop in Octree::build re-reads bodies[0], harmlessly). -/
def bboxMin (b0 : Vec3) (bodies : List CelestialBody) : Vec3 :=
  bodies.foldl (fun acc b => Vec3.vmin acc b.position) b0

/-- Componentwise maximum of all body positions. -/
def bboxMax (b0 : Vec3) (bodies : List CelestialBody) : Vec3 :=
  bodies.foldl (fun acc b => Vec3.vmax acc b.position) b0

/-- One step of the sequential insertion loop: an already-failed insertion
stays failed. -/
def insStep (fuel : ℕ) (acc : Option OctreeNode) (b : CelestialBody) : Option OctreeNode :=
  match acc with
  | none => none
  | some t => insertFuel fuel t b

/-- Octree::build (main.cpp lines 269-288): bounding box of all bodies, root
centered at its midpoint, then sequential insertion.  The source root size is
glm::length(max - min) * 0.5, irrational in general, so the model takes the
root size as a parameter; rootSizeOk ties it to the source expression. -/
def buildFuel (rootSize : ℚ) (bodies : List CelestialBody) (fuel : ℕ) : Option OctreeNode :=
  match bodies with
  | [] => none
  | b0 :: _ =>
    bodies.foldl (insStep fuel)
      (some (OctreeNode.mk
        (((1 : ℚ) / 2) •
          (bboxMin b0.position bodies + bboxMax b0.position bodies))
        rootSize (0, 0, 0) 0 [] []))

/-- The rootSize parameter of buildFuel matches the source expression
glm::length(max - min) * 0.5: it is nonnegative and its double is a square
root of norm2 (max - min). -/
def rootSizeOk (bodies : List CelestialBody) (rootSize : ℚ) : Bool :=
  match bodies with
  | [] => true
  | b0 :: _ =>
    decide (0 ≤ rootSize) &&
      decide ((2 * rootSize) * (2 * rootSize) =
        Vec3.norm2 (bboxMax b0.position bodies - bboxMin b0.position bodies))

mutual

/-- All bodies stored in a node's subtree (the node's own list plus, recursively,
every descendant's list). -/
def OctreeNode.subtreeBodies : OctreeNode → List CelestialBody
  | .mk _ _ _ _ bs cs => bs ++ subtreeBodiesList cs

/-- subtreeBodies over a list of nodes, concatenated in order. -/
def subtreeBodiesList : List OctreeNode → List CelestialBody
  | [] => []
  | c :: cs => c.subtreeBodies ++ subtreeBodiesList cs

end

mutual

/-- Every node of a tree (the node itself and all descendants). -/
def OctreeNode.nodesOf : OctreeNode → List OctreeNode
  | n@(.mk _ _ _ _ _ cs) => n :: nodesOfList cs

/-- nodesOf over a list of nodes, concatenated in order. -/
def nodesOfList : List OctreeNode → List OctreeNode
  | [] => []
  | c :: cs => c.nodesOf ++ nodesOfList cs

end

/-- Sum of the masses of a list of bodies. -/
def massSum (l : List CelestialBody) : ℚ := (l.map CelestialBody.mass).sum

/-- Mass-weighted sum of the positions of a list of bodies. -/
def weightedPosSum (l : List CelestialBody) : Vec3 :=
  (l.map fun b => b.mass • b.position).sum

mutual

/-- calculateForce (main.cpp lines 291-310).  len is the Euclidean length
function glm::length, kept abstract because its values are irrational in
general; the force accumulator is threaded instead of mutated. -/
def calcForce (len : Vec3 → ℚ) (b : CelestialBody) : OctreeNode → Vec3 → Vec3
  | n@(.mk _ _ _ _ _ cs), f =>
    if n.isLeaf ∧ n.bodies = [] then f
    else
      let d := len (n.centerOfMass - b.position)
      if d < 2 then f
      else if n.isLeaf ∨ n.size / d < theta then
        let direction := Vec3.sdiv (n.centerOfMass - b.position) d
        let forceMagnitude := G * b.mass * n.totalMass / (d * d)
        f + forceMagnitude • direction
      else calcForceList len b cs f

/-- The loop over the (existing) children in calculateForce, in index order. -/
def calcForceList (len : Vec3 → ℚ) (b : CelestialBody) : List OctreeNode → Vec3 → Vec3
  | [], f => f
  | c :: cs, f => calcForceList len b cs (calcForce len b c f)

end

/-- CelestialBody::update (main.cpp lines 176-188): leapfrog integration and
force reset. -/
def updateBody (dt : ℚ) (b : CelestialBody) : CelestialBody :=
  let position1 := b.position + (dt / 2) • b.velocity
  let acceleration := Vec3.sdiv b.force b.mass
  let velocity1 := b.velocity + dt • acceleration
  let position2 := position1 + (dt / 2) • velocity1
  { b with position := position2, velocity := velocity1, force := (0, 0, 0) }

/-- One calculateForce call for one body against the shared tree, producing the
body with its updated force accumulator. -/
def processBody (len : Vec3 → ℚ) (root : OctreeNode) (b : CelestialBody) : CelestialBody :=
  { b with force := calcForce len b root b.force }

/-- calculateForcesNormal (main.cpp lines 312-316): strictly sequential
evaluation over all bodies. -/
def calculateForcesNormal (len : Vec3 → ℚ) (root : OctreeNode)
    (bodies : List CelestialBody) : List CelestialBody :=
  bodies.map (processBody len root)

/-- In-place update of the body at one index, identity when out of range;
models a worker writing one body's force accumulator. -/
def updAt (g : CelestialBody → CelestialBody) : List CelestialBody → ℕ → List CelestialBody
  | [], _ => []
  | b :: bs, 0 => g b :: bs
  | b :: bs, i + 1 => b :: updAt g bs i

/-- The static index partition of calculateForcesThreads (main.cpp lines
318-337): chunkSize = n / numThreads, workers 0..numThreads-2 own
[i*chunkSize, (i+1)*chunkSize), the last worker owns the rest. -/
def workerRanges (n numThreads : ℕ) : List (List ℕ) :=
  let chunkSize := n / numThreads
  ((List.range (numThreads - 1)).map fun i => List.range' (i * chunkSize) chunkSize) ++
    [List.range' ((numThreads - 1) * chunkSize) (n - (numThreads - 1) * chunkSize)]

/-- calculateForcesThreads: each worker walks its index range in order; the
workers write disjoint bodies and only read the tree, so the concurrent run is
modelled by running the workers in sequence. -/
def calculateForcesThreads (len : Vec3 → ℚ) (root : OctreeNode) (numThreads : ℕ)
    (bodies : List CelestialBody) : List CelestialBody :=
  (workerRanges bodies.length numThreads).foldl
    (fun bs idxs => idxs.foldl (updAt (processBody len root)) bs) bodies

/-- calculateForcesOmp (main.cpp lines 340-345): omp parallel for over the
bodies; each body is processed exactly once, in some scheduler-chosen order,
modelled as a fold over an arbitrary permutation of the indices. -/
def calculateForcesOmp (len : Vec3 → ℚ) (root : OctreeNode) (order : List ℕ)
    (bodies : List CelestialBody) : List CelestialBody :=
  order.foldl (updAt (processBody len root)) bodies

mutual

/-- Decidable equality of octree nodes (needed to decide list membership on
concrete trees). -/
def OctreeNode.decEq : (a b : OctreeNode) → Decidable (a = b)
  | .mk c1 s1 cm1 tm1 bs1 cs1, .mk c2 s2 cm2 tm2 bs2 cs2 =>
    if h1 : c1 = c2 then
      if h2 : s1 = s2 then
        if h3 : cm1 = cm2 then
          if h4 : tm1 = tm2 then
            if h5 : bs1 = bs2 then
              match OctreeNode.decEqList cs1 cs2 with
              | isTrue h6 => isTrue (by rw [h1, h2, h3, h4, h5, h6])
              | isFalse h6 => isFalse (by intro h; injection h; contradiction)
            else isFalse (by intro h; injection h; contradiction)
          else isFalse (by intro h; injection h; contradiction)
        else isFalse (by intro h; injection h; contradiction)
      else isFalse (by intro h; injection h; contradiction)
    else isFalse (by intro h; injection h; contradiction)
  termination_by a _ => sizeOf a

/-- Decidable equality of lists of octree nodes. -/
def OctreeNode.decEqList : (as bs : List OctreeNode) → Decidable (as = bs)
  | [], [] => isTrue rfl
  | [], _ :: _ => isFalse (by simp)
  | _ :: _, [] => isFalse (by simp)
  | a :: as, b :: bs =>
    match OctreeNode.decEq a b, OctreeNode.decEqList as bs with
    | isTrue h1, isTrue h2 => isTrue (by rw [h1, h2])
    | isFalse h1, _ => isFalse (by intro h; injection h; contradiction)
    | isTrue _, isFalse h2 => isFalse (by intro h; injection h; contradiction)
  termination_by as _ => sizeOf as

end

instance : DecidableEq OctreeNode := OctreeNode.decEq

/-- The per-node invariant the spec states for every node of a constructed
tree: totalMass is the mass sum over the subtree, centerOfMass is the
mass-weighted position (stated multiplied through by totalMass), and the node
is a leaf holding at most one body or an internal node with eight children
and no direct body. -/
def LocalInv (n : OctreeNode) : Prop :=
  n.totalMass = massSum n.subtreeBodies ∧
  n.totalMass • n.centerOfMass = weightedPosSum n.subtreeBodies ∧
  ((n.children.isEmpty = true ∧ n.bodies.length ≤ 1) ∨
    (n.children.length = 8 ∧ n.bodies = []))

/-- The invariant holding at every node of a tree. -/
def TreeInv (t : OctreeNode) : Prop := ∀ n ∈ t.nodesOf, LocalInv n

/-- Structural induction for octree nodes with the inductive hypothesis at
every child. -/
def OctreeNode.recMem (P : OctreeNode → Prop)
    (h : ∀ c s cm tm bs cs, (∀ x ∈ cs, P x) → P (.mk c s cm tm bs cs)) :
    ∀ n, P n
  | .mk c s cm tm bs cs => h c s cm tm bs cs (fun x _ => OctreeNode.recMem P h x)
  termination_by n => sizeOf n
  decreasing_by
    have := List.sizeOf_lt_of_mem (by assumption : x ∈ cs)
    simp only [OctreeNode.mk.sizeOf_spec]
    omega

/-- Demo body at the origin with unit mass. -/
def dA : CelestialBody := ⟨(0, 0, 0), (0, 0, 0), (0, 0, 0), 1, 1⟩

/-- Demo body at (2,0,0) with unit mass. -/
def dB : CelestialBody := ⟨(2, 0, 0), (0, 0, 0), (0, 0, 0), 1, 1⟩

/-- A second demo body at the origin, coincident with dA. -/
def cB : CelestialBody := ⟨(0, 0, 0), (0, 0, 0), (0, 0, 0), 1, 1⟩

/-- Fallback node for Option.getD. -/
def emptyNode : OctreeNode := .mk (0, 0, 0) 0 (0, 0, 0) 0 [] []

/-- The tree built from the two separated demo bodies; the bounding-box
diagonal is 2, so the source root size glm::length(max-min)*0.5 is exactly 1. -/
def demoTree : OctreeNode := (buildFuel 1 [dA, dB] 2).getD emptyNode

/-- The tree built from the same two bodies in the opposite insertion order. -/
def demoTreeSwapped : OctreeNode := (buildFuel 1 [dB, dA] 2).getD emptyNode

/-- The leaf of demoTree holding exactly dA (octant 3 of the root). -/
def demoLeafA : OctreeNode := .mk (3/4, 1/4, 1/4) (1/2) (0, 0, 0) 1 [dA] []

/-- A length function that is exact on vectors lying along the x axis; the
demo configurations keep every queried vector on that axis. -/
def demoLen (v : Vec3) : ℚ := |Vec3.x v|

/-- The node with one body after inserting dA into the degenerate root built
from the two coincident demo bodies; re-inserting into it never terminates. -/
def stuckNode : OctreeNode := .mk (0, 0, 0) 0 (0, 0, 0) 1 [dA] []

/-- Concrete far-away leaf for exercising the point-mass branch of
calculateForce: total mass 3 at (5,0,0). -/
def farNode : OctreeNode :=
  .mk (5, 0, 0) 1 (5, 0, 0) 3 [⟨(5, 0, 0), (0, 0, 0), (0, 0, 0), 1, 3⟩] []

/-- Concrete nearby leaf, center of mass within the softening floor of the
origin. -/
def nearNode : OctreeNode :=
  .mk (1, 0, 0) 1 (1, 0, 0) 3 [⟨(1, 0, 0), (0, 0, 0), (0, 0, 0), 1, 3⟩] []

/-- Concrete body for the integrator witness. -/
def uBody : CelestialBody := ⟨(1, 2, 3), (4, 5, 6), (8, 10, 12), 1, 2⟩

theorem center_mk (c : Vec3) (s : ℚ) (cm : Vec3) (tm : ℚ) (bs : List CelestialBody)
    (cs : List OctreeNode) : (OctreeNode.mk c s cm tm bs cs).center = c := rfl

theorem size_mk (c : Vec3) (s : ℚ) (cm : Vec3) (tm : ℚ) (bs : List CelestialBody)
    (cs : List OctreeNode) : (OctreeNode.mk c s cm tm bs cs).size = s := rfl

theorem centerOfMass_mk (c : Vec3) (s : ℚ) (cm : Vec3) (tm : ℚ) (bs : List CelestialBody)
    (cs : List OctreeNode) : (OctreeNode.mk c s cm tm bs cs).centerOfMass = cm := rfl

theorem totalMass_mk (c : Vec3) (s : ℚ) (cm : Vec3) (tm : ℚ) (bs : List CelestialBody)
    (cs : List OctreeNode) : (OctreeNode.mk c s cm tm bs cs).totalMass = tm := rfl

theorem bodies_mk (c : Vec3) (s : ℚ) (cm : Vec3) (tm : ℚ) (bs : List CelestialBody)
    (cs : List OctreeNode) : (OctreeNode.mk c s cm tm bs cs).bodies = bs := rfl

theorem children_mk (c : Vec3) (s : ℚ) (cm : Vec3) (tm : ℚ) (bs : List CelestialBody)
    (cs : List OctreeNode) : (OctreeNode.mk c s cm tm bs cs).children = cs := rfl

theorem subtreeBodies_mk (c : Vec3) (s : ℚ) (cm : Vec3) (tm : ℚ) (bs : List CelestialBody)
    (cs : List OctreeNode) :
    (OctreeNode.mk c s cm tm bs cs).subtreeBodies = bs ++ subtreeBodiesList cs := by
  simp [OctreeNode.subtreeBodies]

theorem subtreeBodiesList_nil : subtreeBodiesList [] = [] := by
  simp [subtreeBodiesList]

theorem subtreeBodiesList_cons (c : OctreeNode) (cs : List OctreeNode) :
    subtreeBodiesList (c :: cs) = c.subtreeBodies ++ subtreeBodiesList cs := by
  simp [subtreeBodiesList]

theorem nodesOf_mk (c : Vec3) (s : ℚ) (cm : Vec3) (tm : ℚ) (bs : List CelestialBody)
    (cs : List OctreeNode) :
    (OctreeNode.mk c s cm tm bs cs).nodesOf = OctreeNode.mk c s cm tm bs cs :: nodesOfList cs := by
  simp [OctreeNode.nodesOf]

theorem nodesOfList_nil : nodesOfList [] = [] := by
  simp [nodesOfList]

theorem nodesOfList_cons (c : OctreeNode) (cs : List OctreeNode) :
    nodesOfList (c :: cs) = c.nodesOf ++ nodesOfList cs := by
  simp [nodesOfList]

theorem mem_subtreeBodiesList {x : CelestialBody} {cs : List OctreeNode} :
    x ∈ subtreeBodiesList cs ↔ ∃ c ∈ cs, x ∈ c.subtreeBodies := by
  induction cs with
  | nil => simp [subtreeBodiesList_nil]
  | cons c cs ih => simp [subtreeBodiesList_cons, ih]

theorem mem_nodesOfList {n : OctreeNode} {cs : List OctreeNode} :
    n ∈ nodesOfList cs ↔ ∃ c ∈ cs, n ∈ c.nodesOf := by
  induction cs with
  | nil => simp [nodesOfList_nil]
  | cons c cs ih => simp [nodesOfList_cons, ih]

theorem self_mem_nodesOf (n : OctreeNode) : n ∈ n.nodesOf := by
  cases n with
  | mk c s cm tm bs cs => rw [nodesOf_mk]; exact List.mem_cons_self _ _

theorem TreeInv_mk_iff {c : Vec3} {s : ℚ} {cm : Vec3} {tm : ℚ} {bs : List CelestialBody}
    {cs : List OctreeNode} :
    TreeInv (OctreeNode.mk c s cm tm bs cs) ↔
      LocalInv (OctreeNode.mk c s cm tm bs cs) ∧ ∀ c' ∈ cs, TreeInv c' := by
  unfold TreeInv
  rw [nodesOf_mk]
  constructor
  · intro h
    refine ⟨h _ (List.mem_cons_self _ _), fun c' hc' n hn => ?_⟩
    exact h n (List.mem_cons_of_mem _ (mem_nodesOfList.2 ⟨c', hc', hn⟩))
  · rintro ⟨htop, hch⟩ n hn
    rcases List.mem_cons.1 hn with h | h
    · exact h ▸ htop
    · obtain ⟨c', hc', hn'⟩ := mem_nodesOfList.1 h
      exact hch c' hc' n hn'

theorem massSum_nil : massSum [] = 0 := rfl

theorem massSum_cons (b : CelestialBody) (l : List CelestialBody) :
    massSum (b :: l) = b.mass + massSum l := by
  simp [massSum]

theorem massSum_perm {l1 l2 : List CelestialBody} (h : l1.Perm l2) :
    massSum l1 = massSum l2 :=
  (h.map CelestialBody.mass).sum_eq

theorem massSum_nonneg {l : List CelestialBody} (h : ∀ b ∈ l, 0 < b.mass) :
    0 ≤ massSum l := by
  induction l with
  | nil => simp [massSum_nil]
  | cons b l ih =>
    rw [massSum_cons]
    have hb := h b (List.mem_cons_self _ _)
    have hl := ih fun x hx => h x (List.mem_cons_of_mem _ hx)
    linarith

theorem massSum_pos {l : List CelestialBody} (hne : l ≠ [])
    (h : ∀ b ∈ l, 0 < b.mass) : 0 < massSum l := by
  cases l with
  | nil => exact absurd rfl hne
  | cons b l =>
    rw [massSum_cons]
    have hb := h b (List.mem_cons_self _ _)
    have hl := massSum_nonneg fun x hx => h x (List.mem_cons_of_mem _ hx)
    linarith

theorem weightedPosSum_nil : weightedPosSum [] = 0 := rfl

theorem weightedPosSum_cons (b : CelestialBody) (l : List CelestialBody) :
    weightedPosSum (b :: l) = b.mass • b.position + weightedPosSum l := by
  simp [weightedPosSum]

theorem weightedPosSum_perm {l1 l2 : List CelestialBody} (h : l1.Perm l2) :
    weightedPosSum l1 = weightedPosSum l2 := by
  unfold weightedPosSum
  exact (h.map _).sum_eq

theorem TreeInv_empty (c : Vec3) (s : ℚ) (cm : Vec3) :
    TreeInv (OctreeNode.mk c s cm 0 [] []) := by
  intro n hn
  rw [nodesOf_mk, nodesOfList_nil] at hn
  rcases List.mem_cons.1 hn with h | h
  · subst h
    have hsub : (OctreeNode.mk c s cm 0 [] []).subtreeBodies = [] := by
      rw [subtreeBodies_mk, subtreeBodiesList_nil]
      rfl
    refine ⟨?_, ?_, Or.inl ⟨rfl, by simp [bodies_mk]⟩⟩
    · rw [hsub, totalMass_mk, massSum_nil]
    · rw [hsub, weightedPosSum_nil, totalMass_mk, zero_smul]
  · simp at h

theorem subtreeBodiesList_eq_nil {cs : List OctreeNode}
    (h : ∀ x ∈ cs, x.subtreeBodies = []) : subtreeBodiesList cs = [] := by
  induction cs with
  | nil => exact subtreeBodiesList_nil
  | cons c cs ih =>
    rw [subtreeBodiesList_cons, h c (List.mem_cons_self _ _),
      ih fun x hx => h x (List.mem_cons_of_mem _ hx)]
    rfl

theorem mem_subdivideChildren {c : Vec3} {s : ℚ} {x : OctreeNode}
    (h : x ∈ subdivideChildren c s) :
    ∃ cc : Vec3, x = OctreeNode.mk cc (s / 2) (0, 0, 0) 0 [] [] := by
  simp only [subdivideChildren, List.mem_map, List.mem_range] at h
  obtain ⟨i, _, hx⟩ := h
  exact ⟨_, hx.symm⟩

theorem subdivide_treeInv {c : Vec3} {s : ℚ} : ∀ x ∈ subdivideChildren c s, TreeInv x := by
  intro x hx
  obtain ⟨cc, rfl⟩ := mem_subdivideChildren hx
  exact TreeInv_empty _ _ _

theorem subdivide_subtree_nil {c : Vec3} {s : ℚ} :
    subtreeBodiesList (subdivideChildren c s) = [] := by
  apply subtreeBodiesList_eq_nil
  intro x hx
  obtain ⟨cc, rfl⟩ := mem_subdivideChildren hx
  simp [subtreeBodies_mk, subtreeBodiesList_nil]

theorem subdivide_length {c : Vec3} {s : ℚ} : (subdivideChildren c s).length = 8 := by
  simp [subdivideChildren]

theorem subtreeBodies_eq (n : OctreeNode) :
    n.subtreeBodies = n.bodies ++ subtreeBodiesList n.children := by
  cases n with
  | mk c s cm tm bs cs => rw [subtreeBodies_mk]; rfl

theorem subtreeBodiesList_set_perm {cs : List OctreeNode} {i : ℕ} {c c1 : OctreeNode}
    {b : CelestialBody} (hc : cs[i]? = some c)
    (hp : c1.subtreeBodies.Perm (b :: c.subtreeBodies)) :
    (subtreeBodiesList (cs.set i c1)).Perm (b :: subtreeBodiesList cs) := by
  induction cs generalizing i with
  | nil => simp at hc
  | cons x cs ih =>
    cases i with
    | zero =>
      rw [List.getElem?_cons_zero] at hc
      injection hc with hc
      subst hc
      rw [List.set_cons_zero, subtreeBodiesList_cons, subtreeBodiesList_cons]
      exact hp.append_right _
    | succ i =>
      rw [List.getElem?_cons_succ] at hc
      rw [List.set_cons_succ, subtreeBodiesList_cons, subtreeBodiesList_cons]
      exact ((ih hc).append_left _).trans List.perm_middle

theorem treeInv_set {cs : List OctreeNode} {i : ℕ} {c1 : OctreeNode}
    (hall : ∀ c ∈ cs, TreeInv c) (h1 : TreeInv c1) : ∀ c ∈ cs.set i c1, TreeInv c := by
  intro c hc
  rcases List.mem_or_eq_of_mem_set hc with h | h
  · exact hall c h
  · exact h ▸ h1

theorem insertToChild_spec {fuel : ℕ}
    (IH : ∀ c b c1, insertFuel fuel c b = some c1 → TreeInv c →
      (∀ x ∈ c.subtreeBodies, 0 < x.mass) → 0 < b.mass →
      TreeInv c1 ∧ c1.subtreeBodies.Perm (b :: c.subtreeBodies))
    {n : OctreeNode} {b : CelestialBody} {n1 : OctreeNode}
    (h : insertToChildFuel fuel n b = some n1)
    (hch : ∀ c ∈ n.children, TreeInv c)
    (hm : ∀ x ∈ subtreeBodiesList n.children, 0 < x.mass)
    (hb : 0 < b.mass) :
    n1.center = n.center ∧ n1.size = n.size ∧ n1.centerOfMass = n.centerOfMass ∧
    n1.totalMass = n.totalMass ∧ n1.bodies = n.bodies ∧
    n1.children.length = n.children.length ∧
    (∀ c ∈ n1.children, TreeInv c) ∧
    (subtreeBodiesList n1.children).Perm (b :: subtreeBodiesList n.children) := by
  unfold insertToChildFuel at h
  split at h
  · exact absurd h (by simp)
  · rename_i child hget
    split at h
    · exact absurd h (by simp)
    · rename_i child1 hins
      have hmem : child ∈ n.children := List.getElem?_mem hget
      have hchild := IH child b child1 hins (hch child hmem)
        (fun x hx => hm x (mem_subtreeBodiesList.2 ⟨child, hmem, hx⟩)) hb
      injection h with h
      subst h
      refine ⟨rfl, rfl, rfl, rfl, rfl, by simp [children_mk], ?_, ?_⟩
      · intro c hc
        rw [children_mk] at hc
        exact treeInv_set hch hchild.1 c hc
      · rw [children_mk]
        exact subtreeBodiesList_set_perm hget hchild.2

theorem isLeaf_eq (n : OctreeNode) : n.isLeaf = n.children.isEmpty := rfl

theorem treeInv_children {n : OctreeNode} (h : TreeInv n) : ∀ c ∈ n.children, TreeInv c := by
  cases n with
  | mk c s cm tm bs cs =>
    intro c' hc'
    exact (TreeInv_mk_iff.1 h).2 c' hc'

theorem localInv_of_treeInv {n : OctreeNode} (h : TreeInv n) : LocalInv n :=
  h n (self_mem_nodesOf n)

theorem smul_sdiv {t : ℚ} (ht : t ≠ 0) (v : Vec3) : t • Vec3.sdiv v t = v := by
  obtain ⟨a, b, c⟩ := v
  simp only [Vec3.sdiv, Vec3.x, Vec3.y, Vec3.z, Prod.smul_mk, smul_eq_mul]
  rw [mul_div_cancel₀ _ ht, mul_div_cancel₀ _ ht, mul_div_cancel₀ _ ht]

theorem insertFuel_spec : ∀ (fuel : ℕ) (n : OctreeNode) (b : CelestialBody) (n' : OctreeNode),
    insertFuel fuel n b = some n' → TreeInv n → (∀ x ∈ n.subtreeBodies, 0 < x.mass) →
    0 < b.mass → TreeInv n' ∧ n'.subtreeBodies.Perm (b :: n.subtreeBodies) := by
  intro fuel
  induction fuel with
  | zero =>
    intro n b n' h
    exact absurd h (by simp [insertFuel])
  | succ fuel ih =>
    intro n b n' h hinv hm hb
    unfold insertFuel at h
    split at h
    · rename_i hcond
      injection h with h
      subst h
      obtain ⟨hl, hbs⟩ := hcond
      have hcs : n.children = [] := by
        rw [isLeaf_eq] at hl
        exact List.isEmpty_iff.1 hl
      have hsub : n.subtreeBodies = [] := by
        rw [subtreeBodies_eq, hbs, hcs, subtreeBodiesList_nil]
        rfl
      have hsub' : (OctreeNode.mk n.center n.size b.position b.mass [b]
          n.children).subtreeBodies = [b] := by
        rw [subtreeBodies_mk, hcs, subtreeBodiesList_nil]
        rfl
      constructor
      · rw [hcs]
        refine TreeInv_mk_iff.2 ⟨?_, by simp⟩
        refine ⟨?_, ?_, Or.inl ⟨rfl, by simp [bodies_mk]⟩⟩
        · rw [hcs] at hsub'
          rw [hsub', totalMass_mk, massSum_cons, massSum_nil, add_zero]
        · rw [hcs] at hsub'
          rw [hsub', weightedPosSum_cons, weightedPosSum_nil, add_zero, totalMass_mk,
            centerOfMass_mk]
      · rw [hsub', hsub]
    · rename_i hcond
      split at h
      · exact absurd h (by simp)
      · rename_i n1 hpre
        split at h
        · exact absurd h (by simp)
        · rename_i n2 hins2
          injection h with h
          subst h
          obtain ⟨hli1, hli2, hli3⟩ := localInv_of_treeInv hinv
          -- facts about the intermediate node n1
          have hn1 : n1.centerOfMass = n.centerOfMass ∧ n1.totalMass = n.totalMass ∧
              n1.bodies = [] ∧ (∀ c ∈ n1.children, TreeInv c) ∧
              (subtreeBodiesList n1.children).Perm n.subtreeBodies ∧
              (n1.children.length = 8 ∧ n1.bodies = []) := by
            split at hpre
            · rename_i hleaf1
              obtain ⟨hl, hlen⟩ := hleaf1
              have hcs : n.children = [] := by
                rw [isLeaf_eq] at hl
                exact List.isEmpty_iff.1 hl
              split at hpre
              · rename_i existing tail heq
                have htail : tail = [] := by
                  have := hlen
                  rw [heq] at this
                  simp at this
                  exact this
                subst htail
                have hsubn : n.subtreeBodies = [existing] := by
                  rw [subtreeBodies_eq, heq, hcs, subtreeBodiesList_nil]
                  rfl
                have hres := insertToChild_spec ih hpre
                  (by rw [children_mk]; exact subdivide_treeInv)
                  (by
                    intro x hx
                    rw [children_mk, subdivide_subtree_nil] at hx
                    simp at hx)
                  (by
                    apply hm
                    rw [hsubn]
                    exact List.mem_cons_self _ _)
                obtain ⟨-, -, hcm1, htm1, hbs1, hlen1, hinv1, hperm1⟩ := hres
                rw [centerOfMass_mk] at hcm1
                rw [totalMass_mk] at htm1
                rw [bodies_mk] at hbs1
                rw [children_mk, subdivide_length] at hlen1
                refine ⟨hcm1, htm1, hbs1, hinv1, ?_, hlen1, hbs1⟩
                rw [hsubn]
                refine hperm1.trans ?_
                rw [children_mk, subdivide_subtree_nil]
              · exact absurd hpre (by simp)
            · rename_i hnot1
              injection hpre with hpre
              subst hpre
              rcases hli3 with ⟨hl, hle⟩ | ⟨h8, hbs⟩
              · exfalso
                cases hb0 : n.bodies with
                | nil => exact hcond ⟨by rw [isLeaf_eq]; exact hl, hb0⟩
                | cons e tail =>
                  cases tail with
                  | nil => exact hnot1 ⟨by rw [isLeaf_eq]; exact hl, by rw [hb0]; rfl⟩
                  | cons f t2 =>
                    rw [hb0] at hle
                    simp at hle
              · refine ⟨rfl, rfl, hbs, treeInv_children hinv, ?_, h8, hbs⟩
                rw [subtreeBodies_eq, hbs]
                rw [List.nil_append]
          obtain ⟨hcm1, htm1, hbs1, hinv1, hperm1, h81, _⟩ := hn1
          -- second insertion: the new body b into n1
          have hres2 := insertToChild_spec ih hins2 hinv1
            (fun x hx => hm x (hperm1.mem_iff.1 hx)) hb
          obtain ⟨-, -, hcm2, htm2, hbs2, hlen2, hinv2, hperm2⟩ := hres2
          have hsubn' : (OctreeNode.mk n2.center n2.size
              (Vec3.sdiv (n2.totalMass • n2.centerOfMass + b.mass • b.position)
                (n2.totalMass + b.mass))
              (n2.totalMass + b.mass) n2.bodies n2.children).subtreeBodies =
              subtreeBodiesList n2.children := by
            rw [subtreeBodies_mk, hbs2, hbs1, List.nil_append]
          have hperm : (subtreeBodiesList n2.children).Perm (b :: n.subtreeBodies) :=
            hperm2.trans ((hperm1.cons b))
          have htm : n2.totalMass = n.totalMass := htm2.trans htm1
          have hcm : n2.centerOfMass = n.centerOfMass := hcm2.trans hcm1
          have hTpos : 0 < n2.totalMass + b.mass := by
            have h0 : 0 ≤ massSum n.subtreeBodies := massSum_nonneg hm
            rw [htm, hli1]
            linarith
          constructor
          · refine TreeInv_mk_iff.2 ⟨?_, hinv2⟩
            refine ⟨?_, ?_, Or.inr ⟨by rw [children_mk, hlen2, h81], by rw [bodies_mk, hbs2, hbs1]⟩⟩
            · rw [hsubn', totalMass_mk, massSum_perm hperm, massSum_cons, htm, hli1, add_comm]
            · rw [hsubn', totalMass_mk, centerOfMass_mk,
                smul_sdiv (ne_of_gt hTpos), weightedPosSum_perm hperm, weightedPosSum_cons,
                htm, hcm, hli2, add_comm]
          · rw [hsubn']
            exact hperm

theorem insStep_none (fuel : ℕ) (b : CelestialBody) : insStep fuel none b = none := rfl

theorem insStep_some (fuel : ℕ) (t : OctreeNode) (b : CelestialBody) :
    insStep fuel (some t) b = insertFuel fuel t b := rfl

theorem foldl_insStep_none (fuel : ℕ) (l : List CelestialBody) :
    l.foldl (insStep fuel) none = none := by
  induction l with
  | nil => rfl
  | cons b l ih => rw [List.foldl_cons, insStep_none, ih]

theorem buildFold_spec : ∀ (l : List CelestialBody) (fuel : ℕ) (acc t : OctreeNode),
    l.foldl (insStep fuel) (some acc) = some t →
    TreeInv acc → (∀ x ∈ acc.subtreeBodies, 0 < x.mass) → (∀ b ∈ l, 0 < b.mass) →
    TreeInv t ∧ t.subtreeBodies.Perm (l ++ acc.subtreeBodies) := by
  intro l
  induction l with
  | nil =>
    intro fuel acc t h hinv hma _
    rw [List.foldl_nil] at h
    injection h with h
    subst h
    exact ⟨hinv, by rw [List.nil_append]⟩
  | cons b l ihl =>
    intro fuel acc t h hinv hma hml
    rw [List.foldl_cons, insStep_some] at h
    cases hins : insertFuel fuel acc b with
    | none =>
      rw [hins, foldl_insStep_none] at h
      exact absurd h (by simp)
    | some acc1 =>
      rw [hins] at h
      have hacc1 := insertFuel_spec fuel acc b acc1 hins hinv hma
        (hml b (List.mem_cons_self _ _))
      have hnext := ihl fuel acc1 t h hacc1.1
        (fun x hx => by
          rcases List.mem_cons.1 (hacc1.2.mem_iff.1 hx) with h1 | h1
          · exact h1 ▸ hml b (List.mem_cons_self _ _)
          · exact hma x h1)
        (fun x hx => hml x (List.mem_cons_of_mem _ hx))
      refine ⟨hnext.1, ?_⟩
      refine hnext.2.trans ?_
      refine ((hacc1.2.append_left l).trans ?_)
      exact List.perm_middle

theorem buildFuel_spec {rootSize : ℚ} {bodies : List CelestialBody} {fuel : ℕ}
    {t : OctreeNode} (h : buildFuel rootSize bodies fuel = some t)
    (hm : ∀ b ∈ bodies, 0 < b.mass) :
    TreeInv t ∧ t.subtreeBodies.Perm bodies := by
  unfold buildFuel at h
  split at h
  · exact absurd h (by simp)
  · rename_i b0 rest
    have hres := buildFold_spec (b0 :: rest) fuel _ t h (TreeInv_empty _ _ _)
      (by
        intro x hx
        rw [subtreeBodies_mk, subtreeBodiesList_nil] at hx
        simp at hx)
      hm
    refine ⟨hres.1, ?_⟩
    refine hres.2.trans ?_
    rw [subtreeBodies_mk, subtreeBodiesList_nil]
    simp

theorem sdiv_smul {t : ℚ} (ht : t ≠ 0) (v : Vec3) : Vec3.sdiv (t • v) t = v := by
  obtain ⟨a, b, c⟩ := v
  simp only [Vec3.sdiv, Vec3.x, Vec3.y, Vec3.z, Prod.smul_mk, smul_eq_mul]
  rw [mul_div_cancel_left₀ _ ht, mul_div_cancel_left₀ _ ht, mul_div_cancel_left₀ _ ht]

theorem eq_sdiv_of_smul_eq {t : ℚ} (ht : t ≠ 0) {v w : Vec3} (h : t • v = w) :
    v = Vec3.sdiv w t := by
  rw [← h]
  exact (sdiv_smul ht v).symm

theorem subtree_mem_of_nodesOf {t : OctreeNode} :
    ∀ n ∈ t.nodesOf, ∀ x ∈ n.subtreeBodies, x ∈ t.subtreeBodies := by
  induction t using OctreeNode.recMem with
  | _ c s cm tm bs cs ih =>
    intro n hn x hx
    rw [nodesOf_mk] at hn
    rcases List.mem_cons.1 hn with h | h
    · exact h ▸ hx
    · obtain ⟨c', hc', hn'⟩ := mem_nodesOfList.1 h
      have hx' : x ∈ c'.subtreeBodies := ih c' hc' n hn' x hx
      rw [subtreeBodies_mk]
      exact List.mem_append_right _ (mem_subtreeBodiesList.2 ⟨c', hc', hx'⟩)

theorem buildFuel_ne_nil {rootSize : ℚ} {fuel : ℕ} {t : OctreeNode}
    (h : buildFuel rootSize [] fuel = some t) : False := by
  simp [buildFuel] at h

/-- Claim C1: in every tree built by inserting a finite set of bodies (all of
positive mass, the spec's Body invariant), every node's totalMass is the sum
of the masses of the bodies in its subtree and its centerOfMass is their
mass-weighted average position (stated both multiplied through by totalMass
and, for nonempty subtrees, as the explicit quotient); in particular the
root's totalMass is the sum of all inserted masses.  The aggregates come out
of insertion itself: no re-aggregation pass exists in the model, as in the
source. -/
theorem totalMass_centerOfMass_invariant {rootSize : ℚ} {bodies : List CelestialBody}
    {fuel : ℕ} {t : OctreeNode}
    (hsz : rootSizeOk bodies rootSize = true)
    (hb : buildFuel rootSize bodies fuel = some t)
    (hm : ∀ b ∈ bodies, 0 < b.mass) :
    (∀ n ∈ t.nodesOf, n.totalMass = massSum n.subtreeBodies ∧
      n.totalMass • n.centerOfMass = weightedPosSum n.subtreeBodies ∧
      (n.subtreeBodies ≠ [] →
        n.centerOfMass = Vec3.sdiv (weightedPosSum n.subtreeBodies) n.totalMass)) ∧
    t.totalMass = massSum bodies := by
  obtain ⟨hinv, hperm⟩ := buildFuel_spec hb hm
  constructor
  · intro n hn
    obtain ⟨h1, h2, _⟩ := hinv n hn
    refine ⟨h1, h2, fun hne => ?_⟩
    have hpos : 0 < massSum n.subtreeBodies :=
      massSum_pos hne fun x hx =>
        hm x (hperm.mem_iff.1 (subtree_mem_of_nodesOf n hn x hx))
    have ht : n.totalMass ≠ 0 := by rw [h1]; exact ne_of_gt hpos
    exact eq_sdiv_of_smul_eq ht h2
  · obtain ⟨h1, _, _⟩ := localInv_of_treeInv hinv
    rw [h1, massSum_perm hperm]

/-- Witness for C1 on the two-body demo configuration. -/
theorem totalMass_centerOfMass_invariant_witness :
    demoTree.totalMass = massSum [dA, dB] :=
  (@totalMass_centerOfMass_invariant 1 [dA, dB] 2 demoTree (by with_unfolding_all decide)
    (by with_unfolding_all rfl) (by with_unfolding_all decide)).2

/-- Claim C4: every node reachable in a built tree is either a leaf with no
children holding at most one body directly, or an internal node with exactly
eight children holding no body directly, never a mix. -/
theorem leaf_or_eight_children {rootSize : ℚ} {bodies : List CelestialBody}
    {fuel : ℕ} {t : OctreeNode}
    (hsz : rootSizeOk bodies rootSize = true)
    (hb : buildFuel rootSize bodies fuel = some t)
    (hm : ∀ b ∈ bodies, 0 < b.mass) :
    ∀ n ∈ t.nodesOf, (n.children.isEmpty = true ∧ n.bodies.length ≤ 1) ∨
      (n.children.length = 8 ∧ n.bodies = []) :=
  fun n hn => ((buildFuel_spec hb hm).1 n hn).2.2

/-- Witness for C4: the root of the demo tree is internal with eight children
and no direct bodies. -/
theorem leaf_or_eight_children_witness :
    (demoTree.children.isEmpty = true ∧ demoTree.bodies.length ≤ 1) ∨
      (demoTree.children.length = 8 ∧ demoTree.bodies = []) :=
  @leaf_or_eight_children 1 [dA, dB] 2 demoTree (by with_unfolding_all decide)
    (by with_unfolding_all rfl) (by with_unfolding_all decide)
    demoTree (self_mem_nodesOf demoTree)

/-- Claim C10: in exact arithmetic, building from any permutation of the body
list gives the same root totalMass and the same root centerOfMass; insertion
order can change the subdivision structure but not the aggregates. -/
theorem build_perm_aggregates {s1 s2 : ℚ} {l1 l2 : List CelestialBody} {f1 f2 : ℕ}
    {t1 t2 : OctreeNode}
    (hperm : l1.Perm l2) (hm : ∀ b ∈ l1, 0 < b.mass)
    (hs1 : rootSizeOk l1 s1 = true) (hs2 : rootSizeOk l2 s2 = true)
    (h1 : buildFuel s1 l1 f1 = some t1) (h2 : buildFuel s2 l2 f2 = some t2) :
    t1.totalMass = t2.totalMass ∧ t1.centerOfMass = t2.centerOfMass := by
  have hm2 : ∀ b ∈ l2, 0 < b.mass := fun b hb => hm b (hperm.mem_iff.2 hb)
  obtain ⟨hi1, hp1⟩ := buildFuel_spec h1 hm
  obtain ⟨hi2, hp2⟩ := buildFuel_spec h2 hm2
  obtain ⟨e1, e2, _⟩ := localInv_of_treeInv hi1
  obtain ⟨g1, g2, _⟩ := localInv_of_treeInv hi2
  have hl1ne : l1 ≠ [] := by
    intro he
    subst he
    exact buildFuel_ne_nil h1
  have hpos : 0 < massSum l1 := massSum_pos hl1ne hm
  have hM1 : t1.totalMass = massSum l1 := by rw [e1, massSum_perm hp1]
  have hM2 : t2.totalMass = massSum l1 := by
    rw [g1, massSum_perm hp2, massSum_perm hperm]
  have hW1 : t1.totalMass • t1.centerOfMass = weightedPosSum l1 := by
    rw [e2, weightedPosSum_perm hp1]
  have hW2 : t2.totalMass • t2.centerOfMass = weightedPosSum l1 := by
    rw [g2, weightedPosSum_perm hp2, weightedPosSum_perm hperm]
  have hMeq : t1.totalMass = t2.totalMass := by rw [hM1, hM2]
  refine ⟨hMeq, ?_⟩
  have ht1 : t1.totalMass ≠ 0 := by rw [hM1]; exact ne_of_gt hpos
  have ht2 : t2.totalMass ≠ 0 := by rw [hM2]; exact ne_of_gt hpos
  rw [eq_sdiv_of_smul_eq ht1 hW1, eq_sdiv_of_smul_eq ht2 hW2, hM1, hM2]

/-- Witness for C10: the two insertion orders of the demo bodies give equal
root aggregates. -/
theorem build_perm_aggregates_witness :
    demoTree.totalMass = demoTreeSwapped.totalMass ∧
      demoTree.centerOfMass = demoTreeSwapped.centerOfMass :=
  @build_perm_aggregates 1 1 [dA, dB] [dB, dA] 2 2 demoTree demoTreeSwapped
    (by with_unfolding_all decide) (by with_unfolding_all decide)
    (by with_unfolding_all decide) (by with_unfolding_all decide)
    (by with_unfolding_all rfl) (by with_unfolding_all rfl)

theorem smul_sdiv_eq (dt m : ℚ) (v : Vec3) : dt • Vec3.sdiv v m = (dt / m) • v := by
  obtain ⟨a, b, c⟩ := v
  simp only [Vec3.sdiv, Vec3.x, Vec3.y, Vec3.z, Prod.smul_mk, smul_eq_mul, Prod.mk.injEq]
  refine ⟨by ring, by ring, by ring⟩

/-- Claim C3: for positive mass and any time step, CelestialBody::update is
exactly the leapfrog step: the new velocity is the old one plus
(force/mass)*dt, the new position is the old one advanced by half a step at
the old velocity and half a step at the new velocity, and the force
accumulator is reset to zero immediately after. -/
theorem updateBody_leapfrog (dt : ℚ) (b : CelestialBody) (hm : 0 < b.mass) :
    (updateBody dt b).velocity = b.velocity + (dt / b.mass) • b.force ∧
    (updateBody dt b).position =
      b.position + (dt / 2) • b.velocity + (dt / 2) • (updateBody dt b).velocity ∧
    (updateBody dt b).force = (0, 0, 0) := by
  refine ⟨?_, rfl, rfl⟩
  show b.velocity + dt • Vec3.sdiv b.force b.mass = b.velocity + (dt / b.mass) • b.force
  rw [smul_sdiv_eq]

/-- Witness for C3 at a concrete body of mass 2 and step 1. -/
theorem updateBody_leapfrog_witness :
    (updateBody 1 uBody).velocity = uBody.velocity + ((1 : ℚ) / uBody.mass) • uBody.force ∧
    (updateBody 1 uBody).position =
      uBody.position + ((1 : ℚ) / 2) • uBody.velocity +
        ((1 : ℚ) / 2) • (updateBody 1 uBody).velocity ∧
    (updateBody 1 uBody).force = (0, 0, 0) :=
  updateBody_leapfrog 1 uBody (by with_unfolding_all decide)

theorem insertFuel_zero (n : OctreeNode) (b : CelestialBody) :
    insertFuel 0 n b = none := by
  simp [insertFuel]

theorem insertFuel_empty_leaf (fuel : ℕ) (c : Vec3) (s : ℚ) (cm : Vec3) (tm : ℚ)
    (b : CelestialBody) :
    insertFuel (fuel + 1) (.mk c s cm tm [] []) b =
      some (.mk c s b.position b.mass [b] []) := by
  unfold insertFuel
  rw [if_pos ⟨by simp [OctreeNode.isLeaf, children_mk], rfl⟩]
  rfl

theorem insertFuel_leaf_one (fuel : ℕ) (c : Vec3) (s : ℚ) (cm : Vec3) (tm : ℚ)
    (e b : CelestialBody) :
    insertFuel (fuel + 1) (.mk c s cm tm [e] []) b =
      match insertToChildFuel fuel (.mk c s cm tm [] (subdivideChildren c s)) e with
      | none => none
      | some n1 =>
        match insertToChildFuel fuel n1 b with
        | none => none
        | some n2 =>
          some (OctreeNode.mk n2.center n2.size
            (Vec3.sdiv (n2.totalMass • n2.centerOfMass + b.mass • b.position)
              (n2.totalMass + b.mass))
            (n2.totalMass + b.mass) n2.bodies n2.children) := by
  unfold insertFuel
  rw [if_neg (by simp [OctreeNode.isLeaf, children_mk, bodies_mk]),
    if_pos ⟨by simp [OctreeNode.isLeaf, children_mk], by simp [bodies_mk]⟩]
  rfl

theorem insertToChildFuel_eq (fuel : ℕ) (n : OctreeNode) (b : CelestialBody) :
    insertToChildFuel fuel n b =
      match n.children[n.getOctant b.position]? with
      | none => none
      | some child =>
        match insertFuel fuel child b with
        | none => none
        | some child1 =>
          some (OctreeNode.mk n.center n.size n.centerOfMass n.totalMass n.bodies
            (n.children.set (n.getOctant b.position) child1)) := by
  unfold insertToChildFuel
  rfl

theorem insertFuel_stuck : ∀ fuel, insertFuel fuel stuckNode cB = none := by
  intro fuel
  induction fuel with
  | zero => exact insertFuel_zero _ _
  | succ m ih =>
    cases m with
    | zero => with_unfolding_all decide
    | succ k =>
      have ih' : insertFuel (k + 1) stuckNode cB = none := ih
      show insertFuel (k + 1 + 1) (.mk (0, 0, 0) 0 (0, 0, 0) 1 [dA] []) cB = none
      rw [insertFuel_leaf_one]
      have hA : insertToChildFuel (k + 1)
          (.mk (0, 0, 0) 0 (0, 0, 0) 1 [] (subdivideChildren (0, 0, 0) 0)) dA =
          some (.mk (0, 0, 0) 0 (0, 0, 0) 1 []
            ((subdivideChildren (0, 0, 0) 0).set 7 stuckNode)) := by
        rw [insertToChildFuel_eq]
        have h7 : OctreeNode.getOctant
            (.mk (0, 0, 0) 0 (0, 0, 0) 1 [] (subdivideChildren (0, 0, 0) 0))
            dA.position = 7 := by with_unfolding_all decide
        rw [h7]
        have hget : (OctreeNode.children
            (.mk (0, 0, 0) 0 (0, 0, 0) 1 [] (subdivideChildren (0, 0, 0) 0)))[(7 : ℕ)]? =
            some (.mk (0, 0, 0) 0 (0, 0, 0) 0 [] []) := by with_unfolding_all decide
        rw [hget]
        have hstk : (OctreeNode.mk (0, 0, 0) 0 dA.position dA.mass [dA] []) = stuckNode := by
          with_unfolding_all rfl
        simp only [insertFuel_empty_leaf, hstk, center_mk, size_mk, centerOfMass_mk,
          totalMass_mk, bodies_mk, children_mk]
      have hB : insertToChildFuel (k + 1)
          (.mk (0, 0, 0) 0 (0, 0, 0) 1 []
            ((subdivideChildren (0, 0, 0) 0).set 7 stuckNode)) cB = none := by
        rw [insertToChildFuel_eq]
        have h7' : OctreeNode.getOctant
            (.mk (0, 0, 0) 0 (0, 0, 0) 1 []
              ((subdivideChildren (0, 0, 0) 0).set 7 stuckNode))
            cB.position = 7 := by with_unfolding_all decide
        rw [h7']
        have hget' : (OctreeNode.children
            (.mk (0, 0, 0) 0 (0, 0, 0) 1 []
              ((subdivideChildren (0, 0, 0) 0).set 7 stuckNode)))[(7 : ℕ)]? =
            some stuckNode := by with_unfolding_all decide
        rw [hget']
        simp only [ih']
      simp only [hA, hB]

theorem buildFuel_stuck : ∀ fuel, buildFuel 0 [dA, cB] fuel = none := by
  intro fuel
  simp only [buildFuel]
  have hroot : (OctreeNode.mk
      (((1 : ℚ) / 2) • (bboxMin dA.position [dA, cB] + bboxMax dA.position [dA, cB]))
      0 (0, 0, 0) 0 [] []) = OctreeNode.mk (0, 0, 0) 0 (0, 0, 0) 0 [] [] := by
    with_unfolding_all decide
  rw [hroot]
  cases fuel with
  | zero =>
    rw [List.foldl_cons, insStep_some, insertFuel_zero, List.foldl_cons, insStep_none,
      List.foldl_nil]
  | succ k =>
    rw [List.foldl_cons, insStep_some, insertFuel_empty_leaf, List.foldl_cons, insStep_some]
    have hstk : (OctreeNode.mk (0, 0, 0) 0 dA.position dA.mass [dA] []) = stuckNode := by
      with_unfolding_all rfl
    rw [hstk, insertFuel_stuck, List.foldl_nil]

/-- Counterexample for C5: building the tree over two bodies at the same
position (with the exact source root size 0 for that input) fails at every
recursion depth: no fuel bound suffices, because subdivision never separates
the two bodies. -/
theorem build_coincident_no_fuel :
    ¬ ∃ fuel t, buildFuel 0 [dA, cB] fuel = some t := by
  rintro ⟨fuel, t, h⟩
  rw [buildFuel_stuck fuel] at h
  exact absurd h (by simp)

/-- Claim C5 as amended: tree construction has no subdivision-depth cap and
never merges colliding bodies; inserting a second body at a position
coincident with an existing one recurses without bound (the build fails for
every fuel bound), while configurations whose bodies separate into distinct
octants at a finite depth do terminate (the two-body separated demo builds
with fuel 2).  Both root sizes are the exact source values for their inputs. -/
theorem insert_no_depth_cap :
    rootSizeOk [dA, cB] 0 = true ∧
    (∀ fuel, buildFuel 0 [dA, cB] fuel = none) ∧
    rootSizeOk [dA, dB] 1 = true ∧
    (buildFuel 1 [dA, dB] 2).isSome = true := by
  refine ⟨by with_unfolding_all decide, buildFuel_stuck, by with_unfolding_all decide, ?_⟩
  with_unfolding_all decide

theorem calcForce_mk (len : Vec3 → ℚ) (b : CelestialBody) (c : Vec3) (s : ℚ) (cm : Vec3)
    (tm : ℚ) (bs : List CelestialBody) (cs : List OctreeNode) (f : Vec3) :
    calcForce len b (.mk c s cm tm bs cs) f =
      if cs.isEmpty ∧ bs = [] then f
      else if len (cm - b.position) < 2 then f
      else if cs.isEmpty ∨ s / len (cm - b.position) < theta then
        f + (G * b.mass * tm / (len (cm - b.position) * len (cm - b.position))) •
          Vec3.sdiv (cm - b.position) (len (cm - b.position))
      else calcForceList len b cs f := by
  unfold calcForce
  rfl

theorem calcForceList_nil (len : Vec3 → ℚ) (b : CelestialBody) (f : Vec3) :
    calcForceList len b [] f = f := by
  simp [calcForceList]

theorem calcForceList_cons (len : Vec3 → ℚ) (b : CelestialBody) (c : OctreeNode)
    (cs : List OctreeNode) (f : Vec3) :
    calcForceList len b (c :: cs) f = calcForceList len b cs (calcForce len b c f) := by
  simp [calcForceList]

theorem calcForceList_add_of (len : Vec3 → ℚ) (b : CelestialBody) (cs : List OctreeNode)
    (h : ∀ c ∈ cs, ∀ f, calcForce len b c f = f + calcForce len b c 0) :
    ∀ f, calcForceList len b cs f = f + calcForceList len b cs 0 := by
  induction cs with
  | nil =>
    intro f
    rw [calcForceList_nil, calcForceList_nil, add_zero]
  | cons c cs ih =>
    intro f
    have hc := h c (List.mem_cons_self _ _)
    have ih' := ih fun c' hc' => h c' (List.mem_cons_of_mem _ hc')
    rw [calcForceList_cons, calcForceList_cons, ih' (calcForce len b c f),
      ih' (calcForce len b c 0), hc f, hc 0, zero_add, add_assoc]

theorem calcForce_add (len : Vec3 → ℚ) (b : CelestialBody) :
    ∀ n f, calcForce len b n f = f + calcForce len b n 0 := by
  intro n
  induction n using OctreeNode.recMem with
  | _ c s cm tm bs cs ih =>
    intro f
    rw [calcForce_mk, calcForce_mk]
    split_ifs with h1 h2 h3
    · rw [add_zero]
    · rw [add_zero]
    · rw [zero_add]
    · exact calcForceList_add_of len b cs ih f

theorem calcForceList_sum (len : Vec3 → ℚ) (b : CelestialBody) (cs : List OctreeNode) :
    ∀ f, calcForceList len b cs f = f + (cs.map fun c => calcForce len b c 0).sum := by
  induction cs with
  | nil =>
    intro f
    rw [calcForceList_nil, List.map_nil, List.sum_nil, add_zero]
  | cons c cs ih =>
    intro f
    rw [calcForceList_cons, ih, calcForce_add, List.map_cons, List.sum_cons, add_assoc]

theorem calcForce_below_floor (len : Vec3 → ℚ) (b : CelestialBody) (n : OctreeNode)
    (f : Vec3) (h : len (n.centerOfMass - b.position) < 2) :
    calcForce len b n f = f := by
  cases n with
  | mk c s cm tm bs cs =>
    rw [centerOfMass_mk] at h
    rw [calcForce_mk]
    by_cases h1 : (cs.isEmpty = true ∧ bs = [])
    · rw [if_pos h1]
    · rw [if_neg h1, if_pos h]

/-- Claim C2: for a non-empty node, an exact distance d at least the softening
floor, and the source opening test: if the node is a leaf or size/d < theta,
calculateForce adds exactly the vector of magnitude G*mass*totalMass/d^2
along the unit vector toward the center of mass; otherwise it recurses into
the children and changes the accumulator by exactly the sum of their
contributions. -/
theorem calcForce_opening_step (len : Vec3 → ℚ) (b : CelestialBody) (n : OctreeNode)
    (f : Vec3) (d : ℚ)
    (hne : ¬(n.isLeaf = true ∧ n.bodies = []))
    (hd : len (n.centerOfMass - b.position) = d)
    (hfloor : 2 ≤ d) :
    ((n.isLeaf = true ∨ n.size / d < theta) →
      calcForce len b n f =
        f + (G * b.mass * n.totalMass / (d * d)) •
          Vec3.sdiv (n.centerOfMass - b.position) d) ∧
    (¬(n.isLeaf = true ∨ n.size / d < theta) →
      calcForce len b n f =
        f + ((n.children.map fun c => calcForce len b c 0).sum)) := by
  cases n with
  | mk c s cm tm bs cs =>
    rw [centerOfMass_mk] at hd
    simp only [OctreeNode.isLeaf, children_mk, bodies_mk] at hne ⊢
    simp only [centerOfMass_mk, size_mk, totalMass_mk]
    rw [calcForce_mk, hd]
    have hnotlt : ¬(d < 2) := not_lt.2 hfloor
    rw [if_neg hne, if_neg hnotlt]
    constructor
    · intro hcase
      rw [if_pos hcase]
    · intro hcase
      rw [if_neg hcase, calcForceList_sum]

/-- Witness for C2 at a concrete far-away leaf: the point-mass term is added
exactly. -/
theorem calcForce_opening_step_witness :
    calcForce demoLen dA farNode (0, 0, 0) =
      (0, 0, 0) + (G * dA.mass * farNode.totalMass / (5 * 5)) •
        Vec3.sdiv (farNode.centerOfMass - dA.position) 5 :=
  (calcForce_opening_step demoLen dA farNode (0, 0, 0) 5
    (by with_unfolding_all decide) (by with_unfolding_all decide)
    (by with_unfolding_all decide)).1 (Or.inl (by with_unfolding_all decide))

/-- Claim C8: whenever the distance from the body to the node's center of
mass is below the softening floor 2, calculateForce leaves the force
accumulator unchanged and does not descend into the children. -/
theorem softening_floor_skips (len : Vec3 → ℚ) (b : CelestialBody) (n : OctreeNode)
    (f : Vec3) (h : len (n.centerOfMass - b.position) < 2) :
    calcForce len b n f = f :=
  calcForce_below_floor len b n f h

/-- Witness for C8 at a concrete node one unit away. -/
theorem softening_floor_skips_witness :
    calcForce demoLen dA nearNode (0, 0, 0) = (0, 0, 0) :=
  softening_floor_skips demoLen dA nearNode (0, 0, 0) (by with_unfolding_all decide)

/-- Claim C9: in a built tree, a leaf whose only stored body is b itself has
its center of mass exactly at b's position, so the distance is 0 (given only
that the length function sends the zero vector to 0), falls under the
softening floor, and calculateForce adds no self-force. -/
theorem no_self_force {rootSize : ℚ} {bodies : List CelestialBody} {fuel : ℕ}
    {t : OctreeNode} (len : Vec3 → ℚ) (b : CelestialBody) (n : OctreeNode) (f : Vec3)
    (hsz : rootSizeOk bodies rootSize = true)
    (hb : buildFuel rootSize bodies fuel = some t)
    (hm : ∀ x ∈ bodies, 0 < x.mass)
    (hn : n ∈ t.nodesOf) (hleaf : n.isLeaf = true) (hbod : n.bodies = [b])
    (hlen0 : len 0 = 0) :
    calcForce len b n f = f := by
  obtain ⟨hinv, hperm⟩ := buildFuel_spec hb hm
  obtain ⟨h1, h2, _⟩ := hinv n hn
  have hcs : n.children = [] := by
    rw [isLeaf_eq] at hleaf
    exact List.isEmpty_iff.1 hleaf
  have hsub : n.subtreeBodies = [b] := by
    rw [subtreeBodies_eq, hbod, hcs, subtreeBodiesList_nil]
    rfl
  have hbm : 0 < b.mass :=
    hm b (hperm.mem_iff.1 (subtree_mem_of_nodesOf n hn b
      (by rw [hsub]; exact List.mem_cons_self _ _)))
  have hcom : n.centerOfMass = b.position := by
    rw [hsub] at h1 h2
    rw [massSum_cons, massSum_nil, add_zero] at h1
    rw [weightedPosSum_cons, weightedPosSum_nil, add_zero] at h2
    rw [h1] at h2
    exact smul_right_injective Vec3 (ne_of_gt hbm) h2
  apply calcForce_below_floor
  rw [hcom, sub_self, hlen0]
  norm_num

/-- Witness for C9: the demo-tree leaf holding dA contributes nothing to dA's
own force. -/
theorem no_self_force_witness :
    calcForce demoLen dA demoLeafA (0, 0, 0) = (0, 0, 0) :=
  @no_self_force 1 [dA, dB] 2 demoTree demoLen dA demoLeafA (0, 0, 0)
    (by with_unfolding_all decide) (by with_unfolding_all rfl)
    (by with_unfolding_all decide) (by with_unfolding_all decide)
    (by with_unfolding_all decide) (by with_unfolding_all decide)
    (by with_unfolding_all decide)

theorem updAt_getElem? (g : CelestialBody → CelestialBody) :
    ∀ (bs : List CelestialBody) (i j : ℕ),
      (updAt g bs i)[j]? = if i = j then (bs[j]?).map g else bs[j]? := by
  intro bs
  induction bs with
  | nil =>
    intro i j
    simp [updAt]
  | cons b bs ih =>
    intro i j
    cases i with
    | zero =>
      cases j with
      | zero => simp [updAt]
      | succ j => simp [updAt]
    | succ i =>
      cases j with
      | zero => simp [updAt]
      | succ j => simp [updAt, ih]

theorem foldl_updAt_getElem? (g : CelestialBody → CelestialBody) :
    ∀ (idxs : List ℕ) (bs : List CelestialBody) (j : ℕ), idxs.Nodup →
      (idxs.foldl (updAt g) bs)[j]? =
        if j ∈ idxs then (bs[j]?).map g else bs[j]? := by
  intro idxs
  induction idxs with
  | nil =>
    intro bs j _
    simp
  | cons i idxs ih =>
    intro bs j hnd
    rw [List.nodup_cons] at hnd
    obtain ⟨hnin, hnd2⟩ := hnd
    rw [List.foldl_cons, ih (updAt g bs i) j hnd2, updAt_getElem?]
    by_cases hj : j ∈ idxs
    · have hne : i ≠ j := by
        intro he
        rw [he] at hnin
        exact hnin hj
      rw [if_pos hj, if_pos (List.mem_cons_of_mem _ hj), if_neg hne]
    · rw [if_neg hj]
      by_cases hij : i = j
      · rw [if_pos hij, if_pos (by rw [List.mem_cons]; exact Or.inl hij.symm)]
      · have hnotmem : j ∉ i :: idxs := by
          rw [List.mem_cons]
          rintro (h | h)
          · exact hij h.symm
          · exact hj h
        rw [if_neg hij, if_neg hnotmem]

theorem flatten_chunks (c : ℕ) :
    ∀ m : ℕ, ((List.range m).map fun i => List.range' (i * c) c).flatten =
      List.range' 0 (m * c) := by
  intro m
  induction m with
  | zero => simp
  | succ m ih =>
    rw [List.range_succ, List.map_append, List.flatten_append, ih]
    simp only [List.map_cons, List.map_nil, List.flatten_cons, List.flatten_nil,
      List.append_nil]
    have := List.range'_append_1 0 (m * c) c
    rw [Nat.zero_add] at this
    rw [this]
    congr 1
    ring

theorem workerRanges_flatten (n k : ℕ) (hk : 1 ≤ k) :
    (workerRanges n k).flatten = List.range' 0 n := by
  unfold workerRanges
  rw [List.flatten_append, flatten_chunks]
  simp only [List.flatten_cons, List.flatten_nil, List.append_nil]
  have hA : (k - 1) * (n / k) ≤ n := by
    have h1 : n / k * k ≤ n := Nat.div_mul_le_self n k
    have h2 : (k - 1) * (n / k) ≤ (n / k) * k := by
      rw [mul_comm]
      exact Nat.mul_le_mul_left _ (Nat.sub_le k 1)
    omega
  have := List.range'_append_1 0 ((k - 1) * (n / k)) (n - (k - 1) * (n / k))
  rw [Nat.zero_add] at this
  rw [this]
  congr 1
  omega

/-- Claim C7: for a fixed tree and body list, the sequential strategy, the
statically partitioned worker-pool strategy (any worker count at least 1,
with the source chunk arithmetic), and the data-parallel dispatch (any
processing order that touches each body exactly once) produce identical
force accumulators for every body; each body's force is computed by the same
calculateForce call in every strategy. -/
theorem parallel_strategies_agree (len : Vec3 → ℚ) (root : OctreeNode)
    (bodies : List CelestialBody) (numThreads : ℕ) (order : List ℕ)
    (hk : 1 ≤ numThreads) (hord : order.Perm (List.range bodies.length)) :
    calculateForcesThreads len root numThreads bodies =
      calculateForcesNormal len root bodies ∧
    calculateForcesOmp len root order bodies =
      calculateForcesNormal len root bodies := by
  have key : ∀ idxs : List ℕ, idxs.Nodup → (∀ j, j ∈ idxs ↔ j < bodies.length) →
      idxs.foldl (updAt (processBody len root)) bodies =
        bodies.map (processBody len root) := by
    intro idxs hnd hmem
    apply List.ext_getElem?
    intro j
    rw [foldl_updAt_getElem? _ idxs bodies j hnd, List.getElem?_map]
    by_cases hj : j < bodies.length
    · rw [if_pos ((hmem j).2 hj)]
    · rw [if_neg fun hin => hj ((hmem j).1 hin)]
      rw [List.getElem?_eq_none (le_of_not_lt hj)]
      rfl
  constructor
  · unfold calculateForcesThreads
    rw [(List.foldl_flatten (updAt (processBody len root)) bodies
      (workerRanges bodies.length numThreads)).symm]
    rw [workerRanges_flatten _ _ hk]
    exact key _ (List.nodup_range' _ _ _ Nat.one_pos)
      fun j => by rw [List.mem_range'_1]; omega
  · exact key order (hord.nodup_iff.2 (List.nodup_range _))
      fun j => by rw [hord.mem_iff, List.mem_range]

/-- Witness for C7 on the demo configuration with two workers and a reversed
scheduler order. -/
theorem parallel_strategies_agree_witness :
    calculateForcesThreads demoLen demoTree 2 [dA, dB] =
      calculateForcesNormal demoLen demoTree [dA, dB] ∧
    calculateForcesOmp demoLen demoTree [1, 0] [dA, dB] =
      calculateForcesNormal demoLen demoTree [dA, dB] :=
  parallel_strategies_agree demoLen demoTree [dA, dB] 2 [1, 0]
    (by decide) (by with_unfolding_all decide)

end BarnesHut
